import Mathlib

/-!
# micro-batcher: the trigger coordinator and its flush logic

A shallow embedding of `batcher/batcher.go`.

* `batch` carries the fields of the Go struct `batch` that hold state.  The two
  signalling channels `triggerBatch` and `stopBatch` are created with capacity 1
  and carry `struct{}`, so each is the number of values in its buffer.  The
  ticker is `some d` while it runs with period `d` and `none` once stopped.
* `lockChan` is held only inside the locked sections (`lock()` to `unlock()`),
  each of which is one step of `System.step`, so it is free between any two
  steps and is not a field.
* `AddJob` reads `b.enable`, appends under the lock, and after `unlock()` reads
  `len(b.jobs)` twice, sends on `triggerBatch` and resets the ticker.  The
  function `AddJob` below is one call with no other goroutine running in
  between (event `submit`).  `System.step` also has the call piece by piece:
  `enter` (the read of `b.enable`), `appendJob` (`lock()` to `unlock()`),
  `sizeCheck`, `triggerSent`, `tickerCheck`, `tickerReset`, so that a flush,
  a `ShutDown` or another call can run between any two of them; `AddJobSteps`
  lists the pieces of the uninterrupted call.
* `size` is a Go `int`, hence `Int`: a negative `size` makes the slice
  expression `b.jobs[:b.size]` panic, which `sendBatchedJobsForProcessing`
  reports as `none`.
* `System` adds what lives outside of the struct: the goroutines (the
  `monitorBatching` loop, the result forwarders, the calls of `AddJob` by the
  statement they stand at, senders parked on a full channel), the batches
  handed to `Process`, and how often `close(b.result)` was executed.  The
  forwarder's check after its `range` loop, its send and its close are one
  step when the buffer of `stopBatch` has room.  A tick is delivered only
  while the ticker runs.
-/

namespace Batcher

/-- Capacity of `triggerBatch` and of `stopBatch`: `make(chan struct{}, 1)`. -/
def chanCap : Nat := 1

/-- State of the Go struct `batch`. -/
structure batch (Job : Type) where
  /-- batch limit -/
  size : Int
  /-- period handed to the ticker -/
  frequency : Nat
  /-- controls if batching is allowed or not -/
  enable : Bool
  /-- jobs waiting to be batched, oldest first -/
  jobs : List Job
  /-- number of signals buffered in `triggerBatch` -/
  triggerBatch : Nat
  /-- number of signals buffered in `stopBatch` -/
  stopBatch : Nat
  /-- the ticker: `some d` when running with period `d`, `none` when stopped -/
  ticker : Option Nat
deriving DecidableEq, Repr

variable {Job : Type}

/-- `New`: the struct literal of the constructor.  `time.NewTicker(frequency)`
returns a ticker that is already running. -/
def New (size : Int) (frequency : Nat) : batch Job :=
  { size := size
    frequency := frequency
    enable := true
    jobs := []
    triggerBatch := 0
    stopBatch := 0
    ticker := some frequency }

/-- How a call of `AddJob` stands once it can take no further step on its own. -/
inductive AddJobResult (Job : Type) where
  /-- the call ran to its end, leaving the struct as given -/
  | returned (b : batch Job)
  /-- the call waits at `b.triggerBatch <- struct{}{}` because the buffer is
  full; the struct is as given (the job is appended, the lock released) -/
  | blocked (b : batch Job)
deriving DecidableEq, Repr

/-- The struct as a call of `AddJob` leaves it, returned or waiting. -/
def AddJobResult.state : AddJobResult Job → batch Job
  | .returned b => b
  | .blocked b => b

/-- Whether the call of `AddJob` ran to its end. -/
def AddJobResult.isReturned : AddJobResult Job → Bool
  | .returned _ => true
  | .blocked _ => false

/-- The last statement of `AddJob`:
`if len(b.jobs) == 1 { b.ticker.Reset(b.frequency) }`. -/
def resetTickerOnFirstJob (b : batch Job) : batch Job :=
  if b.jobs.length = 1 then { b with ticker := some b.frequency } else b

/-- `AddJob`, as one call that no other goroutine interrupts: the value read
by `len(b.jobs)` after `unlock()` is the length the append left.  The pieces of
the call, for executions in which something runs in between, are the events
`enter`, `appendJob`, `sizeCheck`, `triggerSent`, `tickerCheck` and
`tickerReset` of `System.step`. -/
def AddJob (b : batch Job) (j : Job) : AddJobResult Job :=
  if !b.enable then
    .returned b
  else
    let b1 := { b with jobs := b.jobs ++ [j] }
    if (b1.jobs.length : Int) = b1.size then
      if b1.triggerBatch < chanCap then
        .returned (resetTickerOnFirstJob { b1 with triggerBatch := b1.triggerBatch + 1 })
      else
        .blocked b1
    else
      .returned (resetTickerOnFirstJob b1)

/-- The rearm at the end of the locked part of `sendBatchedJobsForProcessing`:
`if len(b.jobs) > 0 { b.ticker.Reset(b.frequency) }`. -/
def resetTickerIfJobsRemain (b : batch Job) : batch Job :=
  if b.jobs.length > 0 then { b with ticker := some b.frequency } else b

/-- `sendBatchedJobsForProcessing`, up to the call of `Process`: the struct
afterwards and the slice `jobsToBatch` handed to the processor.  `none` is the
panic of `b.jobs[:b.size]` for a negative `size`. -/
def sendBatchedJobsForProcessing (b : batch Job) : Option (batch Job × List Job) :=
  let b1 := { b with ticker := none }
  if (b1.jobs.length : Int) ≥ b1.size then
    if b1.size < 0 then
      none
    else
      let jobsToBatch := b1.jobs.take b1.size.toNat
      some (resetTickerIfJobsRemain { b1 with jobs := b1.jobs.drop b1.size.toNat }, jobsToBatch)
  else
    let jobsToBatch := b1.jobs
    some (resetTickerIfJobsRemain { b1 with jobs := [] }, jobsToBatch)

/-- `ShutDown`. -/
def ShutDown (b : batch Job) : batch Job :=
  { b with enable := false }

/-- The struct after the calls `AddJob j` for the jobs of `js` in turn, a call
that waits on the full `triggerBatch` being left where it waits. -/
def addJobs (b : batch Job) (js : List Job) : batch Job :=
  js.foldl (fun acc j => (AddJob acc j).state) b

/-- Whether each of the calls `AddJob j` for the jobs of `js` in turn ran to
its end. -/
def addJobsReturn : batch Job → List Job → Bool
  | _, [] => true
  | b, j :: js => (AddJob b j).isReturned && addJobsReturn (AddJob b j).state js

/-- Flush again and again while jobs are pending, at most `fuel` times: the
batches handed to `Process`, oldest first, and the struct at the end.  `none`
when a flush panics or when `fuel` flushes leave jobs behind. -/
def flushUntilEmpty : Nat → batch Job → Option (List (List Job) × batch Job)
  | fuel, b =>
    if b.jobs.length = 0 then
      some ([], b)
    else
      match fuel with
      | 0 => none
      | fuel + 1 =>
        match sendBatchedJobsForProcessing b with
        | none => none
        | some (b1, jobsToBatch) =>
          match flushUntilEmpty fuel b1 with
          | none => none
          | some (rest, b2) => some (jobsToBatch :: rest, b2)

/-- The batcher together with its goroutines. -/
structure System (Job : Type) where
  /-- the struct -/
  b : batch Job
  /-- `monitorBatching` has not returned -/
  loopRunning : Bool
  /-- the arguments of the calls of `Process` so far, oldest first -/
  processed : List (List Job)
  /-- forwarder goroutines still inside `for r := range result` -/
  forwarders : Nat
  /-- forwarder goroutines waiting at `b.stopBatch <- struct{}{}` -/
  stopSenders : Nat
  /-- calls of `AddJob` that read `b.enable` as true and are about to take the
  lock and append their job -/
  appenders : Nat
  /-- calls of `AddJob` that released the lock and are about to evaluate
  `len(b.jobs) == b.size` -/
  sizeCheckers : Nat
  /-- calls of `AddJob` that found `len(b.jobs) == b.size` and stand at
  `b.triggerBatch <- struct{}{}`, able to send or waiting for room -/
  triggerSenders : Nat
  /-- calls of `AddJob` about to evaluate `len(b.jobs) == 1` -/
  tickerCheckers : Nat
  /-- calls of `AddJob` that found `len(b.jobs) == 1` and are about to run
  `b.ticker.Reset(b.frequency)` -/
  tickerResetters : Nat
  /-- how many times `close(b.result)` was executed; Go panics on the second -/
  closeCalls : Nat
deriving DecidableEq, Repr

/-- `New` followed by `go b.monitorBatching(ctx)`. -/
def System.init (size : Int) (frequency : Nat) : System Job :=
  { b := New size frequency
    loopRunning := true
    processed := []
    forwarders := 0
    stopSenders := 0
    appenders := 0
    sizeCheckers := 0
    triggerSenders := 0
    tickerCheckers := 0
    tickerResetters := 0
    closeCalls := 0 }

/-- What can happen next in a running batcher. -/
inductive Event (Job : Type) where
  /-- a caller runs `AddJob j` with no other goroutine in between, to its end
  or to the send it has to wait at -/
  | submit (j : Job)
  /-- a caller enters `AddJob` and evaluates `!b.enable`: the call returns, or
  goes on to the lock -/
  | enter
  /-- a call of `AddJob` that went on to the lock runs `b.lock()`, appends its
  job `j` and runs `b.unlock()` -/
  | appendJob (j : Job)
  /-- a call of `AddJob` evaluates `len(b.jobs) == b.size` -/
  | sizeCheck
  /-- a call of `AddJob` evaluates `len(b.jobs) == 1` -/
  | tickerCheck
  /-- a call of `AddJob` runs `b.ticker.Reset(b.frequency)` and returns -/
  | tickerReset
  /-- a caller runs `ShutDown` -/
  | shutdown
  /-- the loop takes `case <-b.ticker.C` -/
  | tick
  /-- the loop takes `case <-b.triggerBatch` -/
  | recvTrigger
  /-- the loop takes `case <-b.stopBatch` -/
  | recvStop
  /-- the loop takes `case <-ctx.Done()` -/
  | cancel
  /-- the processor closed its channel: a forwarder leaves its `range` loop and
  runs the check that follows it -/
  | forwarderDone
  /-- a forwarder waiting on `stopBatch` gets its signal into the buffer -/
  | stopSent
  /-- a call of `AddJob` standing at the send gets its signal into the buffer
  of `triggerBatch` -/
  | triggerSent
deriving DecidableEq, Repr

/-- The loop body of both flushing cases: `sendBatchedJobsForProcessing`
including the `go func()` that starts the forwarder. -/
def System.flush (s : System Job) : Option (System Job) :=
  match sendBatchedJobsForProcessing s.b with
  | none => none
  | some (b1, jobsToBatch) =>
    some { s with b := b1,
                  processed := s.processed ++ [jobsToBatch],
                  forwarders := s.forwarders + 1 }

/-- The tail of the forwarder goroutine:
`if len(b.jobs) == 0 && !b.enable { b.stopBatch <- struct{}{}; close(b.result) }`. -/
def System.forwarderCheck (s : System Job) : System Job :=
  if s.b.jobs.length = 0 && !s.b.enable then
    if s.b.stopBatch < chanCap then
      { s with b := { s.b with stopBatch := s.b.stopBatch + 1 }, closeCalls := s.closeCalls + 1 }
    else
      { s with stopSenders := s.stopSenders + 1 }
  else
    s

/-- One step of the system; `none` when the event cannot happen in this state
or when it makes the program panic. -/
def System.step (s : System Job) : Event Job → Option (System Job)
  | .submit j =>
    match AddJob s.b j with
    | .returned b1 => some { s with b := b1 }
    | .blocked b1 => some { s with b := b1, triggerSenders := s.triggerSenders + 1 }
  | .shutdown => some { s with b := ShutDown s.b }
  | .tick =>
    if s.loopRunning && s.b.ticker.isSome then s.flush else none
  | .recvTrigger =>
    if s.loopRunning && decide (0 < s.b.triggerBatch) then
      System.flush { s with b := { s.b with triggerBatch := s.b.triggerBatch - 1 } }
    else none
  | .recvStop =>
    if s.loopRunning && decide (0 < s.b.stopBatch) then
      some { s with b := { s.b with stopBatch := s.b.stopBatch - 1 }, loopRunning := false }
    else none
  | .cancel =>
    if s.loopRunning then some { s with loopRunning := false } else none
  | .forwarderDone =>
    if 0 < s.forwarders then
      some (System.forwarderCheck { s with forwarders := s.forwarders - 1 })
    else none
  | .stopSent =>
    if 0 < s.stopSenders ∧ s.b.stopBatch < chanCap then
      some { s with b := { s.b with stopBatch := s.b.stopBatch + 1 },
                    stopSenders := s.stopSenders - 1,
                    closeCalls := s.closeCalls + 1 }
    else none
  | .enter =>
    if !s.b.enable then
      some s
    else
      some { s with appenders := s.appenders + 1 }
  | .appendJob j =>
    if 0 < s.appenders then
      some { s with b := { s.b with jobs := s.b.jobs ++ [j] },
                    appenders := s.appenders - 1,
                    sizeCheckers := s.sizeCheckers + 1 }
    else none
  | .sizeCheck =>
    if 0 < s.sizeCheckers then
      if (s.b.jobs.length : Int) = s.b.size then
        some { s with sizeCheckers := s.sizeCheckers - 1,
                      triggerSenders := s.triggerSenders + 1 }
      else
        some { s with sizeCheckers := s.sizeCheckers - 1,
                      tickerCheckers := s.tickerCheckers + 1 }
    else none
  | .triggerSent =>
    if 0 < s.triggerSenders ∧ s.b.triggerBatch < chanCap then
      some { s with b := { s.b with triggerBatch := s.b.triggerBatch + 1 },
                    triggerSenders := s.triggerSenders - 1,
                    tickerCheckers := s.tickerCheckers + 1 }
    else none
  | .tickerCheck =>
    if 0 < s.tickerCheckers then
      if s.b.jobs.length = 1 then
        some { s with tickerCheckers := s.tickerCheckers - 1,
                      tickerResetters := s.tickerResetters + 1 }
      else
        some { s with tickerCheckers := s.tickerCheckers - 1 }
    else none
  | .tickerReset =>
    if 0 < s.tickerResetters then
      some { s with b := { s.b with ticker := some s.b.frequency },
                    tickerResetters := s.tickerResetters - 1 }
    else none

/-- Run a list of events in order. -/
def System.run (s : System Job) : List (Event Job) → Option (System Job)
  | [] => some s
  | e :: es =>
    match s.step e with
    | none => none
    | some s1 => s1.run es

/-- A state some execution from `New` arrives at. -/
def Reachable (size : Int) (frequency : Nat) (s : System Job) : Prop :=
  ∃ es : List (Event Job), (System.init size frequency).run es = some s

/-- Nothing is under way: the ticker is stopped, no size signal is buffered, no
forwarder runs or waits and no call of `AddJob` is under way. -/
def System.quiescent (s : System Job) : Bool :=
  s.b.ticker.isNone && s.b.triggerBatch == 0 && s.forwarders == 0 && s.stopSenders == 0
    && s.appenders == 0 && s.sizeCheckers == 0 && s.triggerSenders == 0
    && s.tickerCheckers == 0 && s.tickerResetters == 0

/-- The pieces of one call `AddJob j` that no other goroutine interrupts, in
the order the call runs them, up to its end or up to the send it waits at. -/
def AddJobSteps (b : batch Job) (j : Job) : List (Event Job) :=
  if !b.enable then
    [Event.enter]
  else
    let tail : List (Event Job) :=
      if (b.jobs ++ [j]).length = 1 then [Event.tickerCheck, Event.tickerReset]
      else [Event.tickerCheck]
    if ((b.jobs ++ [j]).length : Int) = b.size then
      if b.triggerBatch < chanCap then
        [Event.enter, Event.appendJob j, Event.sizeCheck, Event.triggerSent] ++ tail
      else
        [Event.enter, Event.appendJob j, Event.sizeCheck]
    else
      [Event.enter, Event.appendJob j, Event.sizeCheck] ++ tail

end Batcher

namespace Batcher

variable {Job : Type}

/-! ## The struct operations -/

theorem flush_of_nonneg (b : batch Job) (hs : 0 ≤ b.size) :
    sendBatchedJobsForProcessing b =
      some (resetTickerIfJobsRemain
              { b with ticker := none, jobs := b.jobs.drop b.size.toNat },
            b.jobs.take b.size.toNat) := by
  unfold sendBatchedJobsForProcessing
  by_cases hge : (b.jobs.length : Int) ≥ b.size
  · have hneg : ¬ b.size < 0 := by omega
    simp [hge, hneg]
  · have hlt : b.jobs.length ≤ b.size.toNat := by omega
    simp [hge, List.take_of_length_le hlt, List.drop_of_length_le hlt]

theorem resetTickerIfJobsRemain_jobs (b : batch Job) :
    (resetTickerIfJobsRemain b).jobs = b.jobs := by
  unfold resetTickerIfJobsRemain
  split <;> rfl

theorem resetTickerOnFirstJob_jobs (b : batch Job) :
    (resetTickerOnFirstJob b).jobs = b.jobs := by
  unfold resetTickerOnFirstJob
  split <;> rfl

theorem resetTickerOnFirstJob_enable (b : batch Job) :
    (resetTickerOnFirstJob b).enable = b.enable := by
  unfold resetTickerOnFirstJob
  split <;> rfl

theorem AddJob_state_enable (b : batch Job) (j : Job) :
    (AddJob b j).state.enable = b.enable := by
  unfold AddJob
  split
  · rfl
  · dsimp only
    split
    · split
      · simp [AddJobResult.state, resetTickerOnFirstJob_enable]
      · rfl
    · simp [AddJobResult.state, resetTickerOnFirstJob_enable]

theorem AddJob_state_jobs (b : batch Job) (j : Job) (he : b.enable = true) :
    (AddJob b j).state.jobs = b.jobs ++ [j] := by
  unfold AddJob
  simp only [he, Bool.not_true, Bool.false_eq_true, if_false]
  split
  · split
    · simp [AddJobResult.state, resetTickerOnFirstJob_jobs]
    · rfl
  · simp [AddJobResult.state, resetTickerOnFirstJob_jobs]

theorem addJobs_snoc (b : batch Job) (js : List Job) (j : Job) :
    addJobs b (js ++ [j]) = (AddJob (addJobs b js) j).state := by
  simp [addJobs, List.foldl_append]

theorem addJobs_enable (b : batch Job) (js : List Job) :
    (addJobs b js).enable = b.enable := by
  induction js using List.reverseRecOn with
  | nil => rfl
  | append_singleton js j ih => rw [addJobs_snoc, AddJob_state_enable, ih]

theorem addJobs_jobs (b : batch Job) (js : List Job) (he : b.enable = true) :
    (addJobs b js).jobs = b.jobs ++ js := by
  induction js using List.reverseRecOn with
  | nil => simp [addJobs]
  | append_singleton js j ih =>
    rw [addJobs_snoc, AddJob_state_jobs _ _ (by rw [addJobs_enable, he]), ih, List.append_assoc]

/-- C1: for a positive `size`, a flush hands to the processor exactly the first
`min size n` of the `n` pending jobs, in arrival order, and leaves exactly the
remaining ones pending, in arrival order; the batch is no longer than `size`
and batch followed by the remaining queue is the queue before. -/
theorem sendBatchedJobsForProcessing_cuts_front (b : batch Job) (hs : 0 < b.size) :
    ∃ b1 jobsToBatch,
      sendBatchedJobsForProcessing b = some (b1, jobsToBatch) ∧
      jobsToBatch = b.jobs.take (min b.size.toNat b.jobs.length) ∧
      b1.jobs = b.jobs.drop (min b.size.toNat b.jobs.length) ∧
      jobsToBatch.length = min b.size.toNat b.jobs.length ∧
      (jobsToBatch.length : Int) ≤ b.size ∧
      jobsToBatch ++ b1.jobs = b.jobs := by
  refine ⟨_, _, flush_of_nonneg b (le_of_lt hs), ?_, ?_, ?_, ?_, ?_⟩
  · rw [List.take_eq_take]
    simp
  · rw [resetTickerIfJobsRemain_jobs]
    rcases le_total b.size.toNat b.jobs.length with h | h
    · rw [min_eq_left h]
    · rw [min_eq_right h, List.drop_of_length_le h, List.drop_of_length_le (le_refl _)]
  · simp [List.length_take]
  · have : (b.jobs.take b.size.toNat).length ≤ b.size.toNat := List.length_take_le _ _
    omega
  · rw [resetTickerIfJobsRemain_jobs]
    exact List.take_append_drop _ _

/-- Witness for C1: limit 2 with three pending jobs. -/
theorem sendBatchedJobsForProcessing_cuts_front_witness :
    ∃ b1 jobsToBatch,
      sendBatchedJobsForProcessing (addJobs (New 2 5 : batch Nat) [10, 20, 30]) =
        some (b1, jobsToBatch) ∧
      jobsToBatch = [10, 20, 30].take (min (2 : Int).toNat 3) ∧
      b1.jobs = [10, 20, 30].drop (min (2 : Int).toNat 3) ∧
      jobsToBatch.length = min (2 : Int).toNat 3 ∧
      (jobsToBatch.length : Int) ≤ 2 ∧
      jobsToBatch ++ b1.jobs = [10, 20, 30] :=
  sendBatchedJobsForProcessing_cuts_front (addJobs (New 2 5 : batch Nat) [10, 20, 30])
    (by decide)

theorem AddJob_of_disabled (b : batch Job) (j : Job) (hd : b.enable = false) :
    AddJob b j = AddJobResult.returned b := by
  unfold AddJob
  simp [hd]

theorem step_submit_of_disabled (s : System Job) (j : Job) (hd : s.b.enable = false) :
    s.step (Event.submit j) = some s := by
  simp only [System.step, AddJob_of_disabled s.b j hd]

/-- C2: with the shutdown flag set (`enable = false`), `AddJob` discards the job
with no side effect: the call returns at once and the whole state (pending
queue, flag, buffered size signal, ticker, and the goroutines around the
struct) is the one before the call. -/
theorem AddJob_disabled_no_effect (s : System Job) (j : Job) (hd : s.b.enable = false) :
    AddJob s.b j = AddJobResult.returned s.b ∧
    (AddJob s.b j).state.jobs = s.b.jobs ∧
    (AddJob s.b j).state.enable = s.b.enable ∧
    (AddJob s.b j).state.triggerBatch = s.b.triggerBatch ∧
    (AddJob s.b j).state.ticker = s.b.ticker ∧
    s.step (Event.submit j) = some s := by
  have h : AddJob s.b j = AddJobResult.returned s.b := AddJob_of_disabled s.b j hd
  refine ⟨h, ?_, ?_, ?_, ?_, ?_⟩
  · rw [h]; rfl
  · rw [h]; rfl
  · rw [h]; rfl
  · rw [h]; rfl
  · exact step_submit_of_disabled s j hd

/-- Witness for C2: shut down a batcher holding two jobs, then submit. -/
theorem AddJob_disabled_no_effect_witness :
    AddJob (ShutDown (addJobs (New 5 10 : batch Nat) [1, 2])) 3
        = AddJobResult.returned (ShutDown (addJobs (New 5 10 : batch Nat) [1, 2])) ∧
    (AddJob (ShutDown (addJobs (New 5 10 : batch Nat) [1, 2])) 3).state.jobs = [1, 2] ∧
    (AddJob (ShutDown (addJobs (New 5 10 : batch Nat) [1, 2])) 3).state.enable = false ∧
    (AddJob (ShutDown (addJobs (New 5 10 : batch Nat) [1, 2])) 3).state.triggerBatch = 0 ∧
    (AddJob (ShutDown (addJobs (New 5 10 : batch Nat) [1, 2])) 3).state.ticker = some 10 ∧
    System.step
        { b := ShutDown (addJobs (New 5 10 : batch Nat) [1, 2]), loopRunning := true,
          processed := [], forwarders := 0, stopSenders := 0, appenders := 0, sizeCheckers := 0,
          triggerSenders := 0,
          tickerCheckers := 0, tickerResetters := 0,
          closeCalls := 0 }
        (Event.submit 3)
      = some
        { b := ShutDown (addJobs (New 5 10 : batch Nat) [1, 2]), loopRunning := true,
          processed := [], forwarders := 0, stopSenders := 0, appenders := 0, sizeCheckers := 0,
          triggerSenders := 0,
          tickerCheckers := 0, tickerResetters := 0,
          closeCalls := 0 } :=
  AddJob_disabled_no_effect
    { b := ShutDown (addJobs (New 5 10 : batch Nat) [1, 2]), loopRunning := true,
      processed := [], forwarders := 0, stopSenders := 0, appenders := 0, sizeCheckers := 0,
      triggerSenders := 0,
      tickerCheckers := 0, tickerResetters := 0,
      closeCalls := 0 }
    3 rfl

/-- C3: with the shutdown flag not set, `AddJob` leaves the pending queue as it
was with the job appended at the end: the length grows by exactly one, the
jobs already queued keep their positions, and submitting the jobs of `js` one
after the other with no flush in between leaves the queue followed by `js`, so
exactly `js` when the queue was empty. -/
theorem AddJob_enabled_appends (b : batch Job) (j : Job) (he : b.enable = true) :
    (AddJob b j).state.jobs = b.jobs ++ [j] ∧
    (AddJob b j).state.jobs.length = b.jobs.length + 1 ∧
    (∀ i, i < b.jobs.length → (AddJob b j).state.jobs[i]? = b.jobs[i]?) ∧
    (AddJob b j).state.jobs[b.jobs.length]? = some j ∧
    (∀ js : List Job, (addJobs b js).jobs = b.jobs ++ js) ∧
    (b.jobs = [] → ∀ js : List Job,
      (addJobs b js).jobs = js ∧ (addJobs b js).jobs.length = js.length) := by
  have h := AddJob_state_jobs b j he
  refine ⟨h, ?_, ?_, ?_, ?_, ?_⟩
  · rw [h]; simp
  · intro i hi
    rw [h, List.getElem?_append_left hi]
  · rw [h]; simp
  · intro js
    exact addJobs_jobs b js he
  · intro hnil js
    have := addJobs_jobs b js he
    rw [hnil, List.nil_append] at this
    rw [this]
    exact ⟨rfl, rfl⟩

/-- Witness for C3: the three submits of `TestBatch_AddJob`. -/
theorem AddJob_enabled_appends_witness :
    (AddJob (New 5 10 : batch Nat) 1).state.jobs = [] ++ [1] ∧
    (AddJob (New 5 10 : batch Nat) 1).state.jobs.length = 0 + 1 ∧
    (∀ i, i < 0 → (AddJob (New 5 10 : batch Nat) 1).state.jobs[i]? = ([] : List Nat)[i]?) ∧
    (AddJob (New 5 10 : batch Nat) 1).state.jobs[0]? = some 1 ∧
    (∀ js : List Nat, (addJobs (New 5 10 : batch Nat) js).jobs = [] ++ js) ∧
    (([] : List Nat) = [] → ∀ js : List Nat,
      (addJobs (New 5 10 : batch Nat) js).jobs = js ∧
      (addJobs (New 5 10 : batch Nat) js).jobs.length = js.length) :=
  AddJob_enabled_appends (New 5 10 : batch Nat) 1 rfl

/-! ## Filling a fresh batcher up to its limit -/

theorem addJobsReturn_snoc (b : batch Job) (js : List Job) (j : Job) :
    addJobsReturn b (js ++ [j])
      = (addJobsReturn b js && (AddJob (addJobs b js) j).isReturned) := by
  induction js generalizing b with
  | nil => simp [addJobsReturn, addJobs]
  | cons x xs ih =>
    have h1 : addJobsReturn b ((x :: xs) ++ [j])
        = ((AddJob b x).isReturned && addJobsReturn (AddJob b x).state (xs ++ [j])) := rfl
    have h2 : addJobsReturn b (x :: xs)
        = ((AddJob b x).isReturned && addJobsReturn (AddJob b x).state xs) := rfl
    have h3 : addJobs b (x :: xs) = addJobs (AddJob b x).state xs := rfl
    rw [h1, h2, h3, ih, Bool.and_assoc]

/-- The struct after submitting at most `size` jobs to a fresh batcher, and
that none of these calls had to wait. -/
theorem addJobs_New (size : Int) (frequency : Nat) (js : List Job)
    (hle : (js.length : Int) ≤ size) :
    addJobs (New size frequency) js =
      ({ size := size, frequency := frequency, enable := true, jobs := js,
         triggerBatch := if (js.length : Int) = size ∧ 0 < js.length then 1 else 0,
         stopBatch := 0, ticker := some frequency } : batch Job) ∧
    addJobsReturn (New size frequency : batch Job) js = true := by
  induction js using List.reverseRecOn with
  | nil => simp [addJobs, addJobsReturn, New]
  | append_singleton js j ih =>
    have hlen : ((js ++ [j]).length : Int) = (js.length : Int) + 1 := by simp
    have hlt : (js.length : Int) < size := by omega
    have hne : ¬ ((js.length : Int) = size ∧ 0 < js.length) := fun h => by omega
    obtain ⟨hst, hret⟩ := ih (le_of_lt hlt)
    rw [if_neg hne] at hst
    rw [addJobs_snoc, addJobsReturn_snoc, hret, hst]
    unfold AddJob
    by_cases hfull : (js.length : Int) + 1 = size
    · simp [hfull, hlen, chanCap, AddJobResult.state, AddJobResult.isReturned,
        resetTickerOnFirstJob]
    · have hfull2 : ¬ ((js.length : Int) + 1 = size) := hfull
      simp [hfull2, hlen, AddJobResult.state, AddJobResult.isReturned,
        resetTickerOnFirstJob]

theorem run_append (s : System Job) (es fs : List (Event Job)) :
    s.run (es ++ fs) = (s.run es).bind (fun s1 => s1.run fs) := by
  induction es generalizing s with
  | nil => rfl
  | cons e es ih =>
    simp only [List.cons_append, System.run]
    cases s.step e with
    | none => rfl
    | some s1 => exact ih s1

theorem run_submits (s : System Job) (js : List Job) (hret : addJobsReturn s.b js = true) :
    s.run (js.map Event.submit) = some { s with b := addJobs s.b js } := by
  induction js generalizing s with
  | nil => rfl
  | cons j js ih =>
    simp only [addJobsReturn, Bool.and_eq_true] at hret
    obtain ⟨h1, h2⟩ := hret
    simp only [List.map_cons, System.run, System.step]
    cases hadd : AddJob s.b j with
    | blocked b1 => rw [hadd] at h1; exact absurd h1 (by simp [AddJobResult.isReturned])
    | returned b1 =>
      rw [hadd] at h2
      have := ih { s with b := b1 } h2
      simpa [addJobs, hadd, AddJobResult.state] using this

/-- C4: on a freshly constructed batcher with a positive `size`, submitting
exactly `size` jobs lets every call return, leaves no size signal buffered
after any of the first `size - 1` submits and exactly one after the last; the
flush the loop runs on receiving that signal hands precisely those jobs, in
submission order, to the processor and leaves the pending queue empty. -/
theorem size_trigger_flushes_exactly_size_jobs (size : Int) (frequency : Nat)
    (js : List Job) (hs : 0 < size) (hlen : (js.length : Int) = size) :
    addJobsReturn (New size frequency : batch Job) js = true ∧
    (∀ k, k < js.length →
      (addJobs (New size frequency : batch Job) (js.take k)).triggerBatch = 0) ∧
    (addJobs (New size frequency : batch Job) js).triggerBatch = 1 ∧
    (addJobs (New size frequency : batch Job) js).jobs = js ∧
    ∃ s1 : System Job,
      (System.init size frequency).run (js.map Event.submit ++ [Event.recvTrigger]) = some s1 ∧
      s1.processed = [js] ∧ s1.b.jobs = [] ∧ s1.b.triggerBatch = 0 ∧ s1.forwarders = 1 := by
  have hne : 0 < js.length := by omega
  obtain ⟨hst, hret⟩ := addJobs_New size frequency js (le_of_eq hlen)
  rw [if_pos ⟨hlen, hne⟩] at hst
  refine ⟨hret, ?_, ?_, ?_, ?_⟩
  · intro k hk
    have hk' : ((js.take k).length : Int) < size := by
      rw [List.length_take, min_eq_left (le_of_lt hk)]
      omega
    have h := (addJobs_New size frequency (js.take k) (le_of_lt hk')).1
    rw [h]
    have : ¬ (((js.take k).length : Int) = size ∧ 0 < (js.take k).length) := fun h => by omega
    simp only [this, if_false]
  · rw [hst]
  · rw [hst]
  · have hrun := run_submits (System.init size frequency) js hret
    have hb : (System.init size frequency : System Job).b = New size frequency := rfl
    rw [hb, hst] at hrun
    rw [run_append, hrun]
    simp only [Option.bind, System.run, System.step, System.init]
    have hnn : (0 : Int) ≤ size := le_of_lt hs
    have htake : js.take size.toNat = js := List.take_of_length_le (by omega)
    have hdrop : js.drop size.toNat = [] := List.drop_of_length_le (by omega)
    have hflush := flush_of_nonneg
      ({ size := size, frequency := frequency, enable := true, jobs := js, triggerBatch := 0,
         stopBatch := 0, ticker := some frequency } : batch Job) hnn
    simp only [htake, hdrop] at hflush
    simp [System.flush, hflush, resetTickerIfJobsRemain]

/-- Witness for C4: limit 3 and the jobs 7, 8, 9. -/
theorem size_trigger_flushes_exactly_size_jobs_witness :
    addJobsReturn (New 3 10 : batch Nat) [7, 8, 9] = true ∧
    (∀ k, k < [7, 8, 9].length →
      (addJobs (New 3 10 : batch Nat) ([7, 8, 9].take k)).triggerBatch = 0) ∧
    (addJobs (New 3 10 : batch Nat) [7, 8, 9]).triggerBatch = 1 ∧
    (addJobs (New 3 10 : batch Nat) [7, 8, 9]).jobs = [7, 8, 9] ∧
    ∃ s1 : System Nat,
      (System.init 3 10).run ([7, 8, 9].map Event.submit ++ [Event.recvTrigger]) = some s1 ∧
      s1.processed = [[7, 8, 9]] ∧ s1.b.jobs = [] ∧ s1.b.triggerBatch = 0 ∧
      s1.forwarders = 1 :=
  size_trigger_flushes_exactly_size_jobs 3 10 [7, 8, 9] (by decide) (by decide)

/-! ## Draining the queue by successive flushes -/

theorem ceilDiv_step (n s : Nat) (hs : 0 < s) (hn : 0 < n) :
    (n + s - 1) / s = (n - s + s - 1) / s + 1 := by
  by_cases h : s ≤ n
  · have e : n + s - 1 = (n - s + s - 1) + s := by omega
    rw [e, Nat.add_div_right _ hs]
  · have e1 : n + s - 1 = (n - 1) + s := by omega
    have e2 : (n - 1) / s = 0 := Nat.div_eq_of_lt (by omega)
    have e3 : (n - s + s - 1) / s = 0 := Nat.div_eq_of_lt (by omega)
    rw [e1, Nat.add_div_right _ hs, e2, e3]

theorem flushUntilEmpty_of_empty (fuel : Nat) (b : batch Job) (h : b.jobs.length = 0) :
    flushUntilEmpty fuel b = some ([], b) := by
  unfold flushUntilEmpty
  simp [h]

theorem flushUntilEmpty_succ (fuel : Nat) (b : batch Job) (h : b.jobs.length ≠ 0) :
    flushUntilEmpty (fuel + 1) b =
      match sendBatchedJobsForProcessing b with
      | none => none
      | some (b1, jobsToBatch) =>
        match flushUntilEmpty fuel b1 with
        | none => none
        | some (rest, b2) => some (jobsToBatch :: rest, b2) := by
  conv_lhs => unfold flushUntilEmpty
  simp [h]

theorem resetTickerIfJobsRemain_size (b : batch Job) :
    (resetTickerIfJobsRemain b).size = b.size := by
  unfold resetTickerIfJobsRemain
  split <;> rfl

/-- C5: for a positive `size` and a pending queue of `n` jobs to which nothing
is added, flushing until the queue is empty ends after `ceil (n / size)`
flushes (any fuel of at least that many is enough); the batches handed to the
processor, concatenated in dispatch order, are the queue, so every job is in
exactly one batch, none twice and none lost; each batch is non-empty and no
longer than `size`. -/
theorem flushUntilEmpty_dispatches_every_job_once (fuel : Nat) (b : batch Job)
    (hs : 0 < b.size)
    (hf : (b.jobs.length + b.size.toNat - 1) / b.size.toNat ≤ fuel) :
    ∃ batches b1,
      flushUntilEmpty fuel b = some (batches, b1) ∧
      batches.flatten = b.jobs ∧
      b1.jobs = [] ∧
      batches.length = (b.jobs.length + b.size.toNat - 1) / b.size.toNat ∧
      ∀ x ∈ batches, x ≠ [] ∧ (x.length : Int) ≤ b.size := by
  induction fuel generalizing b with
  | zero =>
    have hsz : 0 < b.size.toNat := by omega
    by_cases hn : b.jobs.length = 0
    · refine ⟨[], b, flushUntilEmpty_of_empty 0 b hn, ?_, ?_, ?_, ?_⟩
      · simp [List.length_eq_zero.mp hn]
      · exact List.length_eq_zero.mp hn
      · rw [hn, Nat.zero_add, Nat.div_eq_of_lt (by omega)]
        rfl
      · intro x hx
        simp at hx
    · exfalso
      rw [ceilDiv_step _ _ hsz (Nat.pos_of_ne_zero hn)] at hf
      exact Nat.not_succ_le_zero _ hf
  | succ fuel ih =>
    have hsz : 0 < b.size.toNat := by omega
    by_cases hn : b.jobs.length = 0
    · refine ⟨[], b, flushUntilEmpty_of_empty _ b hn, ?_, ?_, ?_, ?_⟩
      · simp [List.length_eq_zero.mp hn]
      · exact List.length_eq_zero.mp hn
      · rw [hn, Nat.zero_add, Nat.div_eq_of_lt (by omega)]
        rfl
      · intro x hx
        simp at hx
    · have hstep := ceilDiv_step _ _ hsz (Nat.pos_of_ne_zero hn)
      have hflush := flush_of_nonneg b (le_of_lt hs)
      have hsize' : (resetTickerIfJobsRemain
          { b with ticker := none, jobs := b.jobs.drop b.size.toNat }).size = b.size := by
        rw [resetTickerIfJobsRemain_size]
      have hjobs' : (resetTickerIfJobsRemain
          { b with ticker := none, jobs := b.jobs.drop b.size.toNat }).jobs
            = b.jobs.drop b.size.toNat := by
        rw [resetTickerIfJobsRemain_jobs]
      have hlen' : (b.jobs.drop b.size.toNat).length = b.jobs.length - b.size.toNat :=
        List.length_drop _ _
      obtain ⟨rest, b2, hrun, hflat, hempty, hcount, hall⟩ :=
        ih (resetTickerIfJobsRemain { b with ticker := none, jobs := b.jobs.drop b.size.toNat })
          (by rw [hsize']; exact hs)
          (by rw [hsize', hjobs', hlen']; omega)
      rw [hsize'] at hcount hall
      rw [hjobs'] at hflat hcount
      rw [hlen'] at hcount
      refine ⟨b.jobs.take b.size.toNat :: rest, b2, ?_, ?_, hempty, ?_, ?_⟩
      · rw [flushUntilEmpty_succ _ _ hn, hflush]
        simp only [hrun]
      · rw [List.flatten_cons, hflat, List.take_append_drop]
      · rw [List.length_cons, hcount, hstep]
      · intro x hx
        rcases List.mem_cons.mp hx with rfl | hx
        · constructor
          · intro hnil
            have h0 : (b.jobs.take b.size.toNat).length = 0 := by rw [hnil]; rfl
            rw [List.length_take] at h0
            omega
          · have := List.length_take_le b.size.toNat b.jobs
            omega
        · exact hall x hx

/-- Witness for C5: limit 2 with three jobs gives a batch of two, then of one. -/
theorem flushUntilEmpty_dispatches_every_job_once_witness :
    ∃ batches b1,
      flushUntilEmpty 2 (addJobs (New 2 500 : batch Nat) [1, 2, 3]) = some (batches, b1) ∧
      batches.flatten = [1, 2, 3] ∧
      b1.jobs = [] ∧
      batches.length = (3 + (2 : Int).toNat - 1) / (2 : Int).toNat ∧
      ∀ x ∈ batches, x ≠ [] ∧ (x.length : Int) ≤ 2 :=
  flushUntilEmpty_dispatches_every_job_once 2 (addJobs (New 2 500 : batch Nat) [1, 2, 3])
    (by decide) (by decide)

/-- Two concrete drains: limit 2 with three jobs, and limit 5 with eight jobs
as in `main.go`. -/
theorem flushUntilEmpty_examples :
    (flushUntilEmpty 2 (addJobs (New 2 500 : batch Nat) [1, 2, 3])).map Prod.fst
      = some [[1, 2], [3]] ∧
    (flushUntilEmpty 2 (addJobs (New 5 5 : batch Nat) [1, 2, 3, 4, 5, 6, 7, 8])).map Prod.fst
      = some [[1, 2, 3, 4, 5], [6, 7, 8]] := by
  constructor <;> decide

/-! ## Executions of the whole system -/

/-- A property kept by every step is kept by every run. -/
theorem run_preserves (P : System Job → Prop)
    (hstep : ∀ (s : System Job) (e : Event Job) (s1 : System Job),
      P s → s.step e = some s1 → P s1)
    (s : System Job) (es : List (Event Job)) (s1 : System Job)
    (h0 : P s) (hrun : s.run es = some s1) : P s1 := by
  induction es generalizing s with
  | nil =>
    simp only [System.run, Option.some.injEq] at hrun
    rw [← hrun]
    exact h0
  | cons e es ih =>
    simp only [System.run] at hrun
    cases hst : s.step e with
    | none => rw [hst] at hrun; exact absurd hrun (by simp)
    | some s2 =>
      rw [hst] at hrun
      exact ih s2 (hstep s e s2 h0 hst) hrun

theorem flush_enable (s s1 : System Job) (h : s.flush = some s1) :
    s1.b.enable = s.b.enable := by
  unfold System.flush at h
  unfold sendBatchedJobsForProcessing at h
  unfold resetTickerIfJobsRemain at h
  dsimp only at h
  split at h
  · exact absurd h (by simp)
  · rename_i b1 jb heq
    simp only [Option.some.injEq] at h
    subst h
    dsimp only
    split at heq
    · split at heq
      · exact absurd heq (by simp)
      · simp only [Option.some.injEq, Prod.mk.injEq] at heq
        obtain ⟨h1, -⟩ := heq
        rw [← h1]
        split <;> rfl
    · simp only [Option.some.injEq, Prod.mk.injEq] at heq
      obtain ⟨h1, -⟩ := heq
      rw [← h1]
      split <;> rfl

theorem forwarderCheck_enable (s : System Job) :
    (System.forwarderCheck s).b.enable = s.b.enable := by
  unfold System.forwarderCheck
  split
  · split <;> rfl
  · rfl

/-- No step sets `enable` once it is `false`. -/
theorem step_keeps_disabled (s : System Job) (e : Event Job) (s1 : System Job)
    (hd : s.b.enable = false) (hst : s.step e = some s1) : s1.b.enable = false := by
  cases e with
  | submit j =>
    have h := AddJob_state_enable s.b j
    simp only [System.step] at hst
    cases hadd : AddJob s.b j with
    | returned b1 =>
      rw [hadd] at hst h
      simp only [Option.some.injEq] at hst
      rw [← hst]
      simpa [AddJobResult.state, hd] using h
    | blocked b1 =>
      rw [hadd] at hst h
      simp only [Option.some.injEq] at hst
      rw [← hst]
      simpa [AddJobResult.state, hd] using h
  | shutdown =>
    simp only [System.step, Option.some.injEq] at hst
    rw [← hst]
    rfl
  | tick =>
    simp only [System.step] at hst
    split at hst
    · rw [flush_enable s s1 hst, hd]
    · exact absurd hst (by simp)
  | recvTrigger =>
    simp only [System.step] at hst
    split at hst
    · rw [flush_enable _ s1 hst]
      exact hd
    · exact absurd hst (by simp)
  | recvStop =>
    simp only [System.step] at hst
    split at hst
    · simp only [Option.some.injEq] at hst
      rw [← hst]
      exact hd
    · exact absurd hst (by simp)
  | cancel =>
    simp only [System.step] at hst
    split at hst
    · simp only [Option.some.injEq] at hst
      rw [← hst]
      exact hd
    · exact absurd hst (by simp)
  | forwarderDone =>
    simp only [System.step] at hst
    split at hst
    · simp only [Option.some.injEq] at hst
      rw [← hst, forwarderCheck_enable]
      exact hd
    · exact absurd hst (by simp)
  | stopSent =>
    simp only [System.step] at hst
    split at hst
    · simp only [Option.some.injEq] at hst
      rw [← hst]
      exact hd
    · exact absurd hst (by simp)
  | triggerSent =>
    simp only [System.step] at hst
    split at hst
    · simp only [Option.some.injEq] at hst
      rw [← hst]
      exact hd
    · exact absurd hst (by simp)
  | enter =>
    simp only [System.step, hd, Bool.not_false, if_true, Option.some.injEq] at hst
    rw [← hst]
    exact hd
  | appendJob j =>
    simp only [System.step] at hst
    split at hst
    · simp only [Option.some.injEq] at hst
      rw [← hst]
      exact hd
    · exact absurd hst (by simp)
  | sizeCheck =>
    simp only [System.step] at hst
    split at hst
    · split at hst <;>
        (simp only [Option.some.injEq] at hst; rw [← hst]; exact hd)
    · exact absurd hst (by simp)
  | tickerCheck =>
    simp only [System.step] at hst
    split at hst
    · split at hst <;>
        (simp only [Option.some.injEq] at hst; rw [← hst]; exact hd)
    · exact absurd hst (by simp)
  | tickerReset =>
    simp only [System.step] at hst
    split at hst
    · simp only [Option.some.injEq] at hst
      rw [← hst]
      exact hd
    · exact absurd hst (by simp)

/-- C6: `ShutDown` is idempotent and the flag is monotonic.  Calling `ShutDown`
twice gives the state of calling it once; and in every execution that starts
with a `ShutDown`, whatever events follow (submits, flushes by ticker or size
signal, further shutdowns, forwarders finishing, stop or cancellation),
`enable` is `false` at the end and a submit then, as one call or as a call
entering piece by piece, returns at its first statement and leaves the whole
state, the pending queue included, as it is. -/
theorem ShutDown_idempotent_and_final (s : System Job) (es : List (Event Job))
    (s1 : System Job) (hrun : s.run (Event.shutdown :: es) = some s1) :
    ShutDown (ShutDown s.b) = ShutDown s.b ∧
    s.run [Event.shutdown, Event.shutdown] = s.run [Event.shutdown] ∧
    (ShutDown s.b).enable = false ∧
    s1.b.enable = false ∧
    ∀ j : Job, s1.step (Event.submit j) = some s1 ∧ (AddJob s1.b j).state.jobs = s1.b.jobs ∧
      s1.step Event.enter = some s1 := by
  have hfin : s1.b.enable = false := by
    simp only [System.run, System.step] at hrun
    exact run_preserves (fun t => t.b.enable = false) step_keeps_disabled _ es s1 rfl hrun
  refine ⟨rfl, rfl, rfl, hfin, fun j => ?_⟩
  refine ⟨step_submit_of_disabled s1 j hfin, ?_, ?_⟩
  · rw [AddJob_of_disabled s1.b j hfin]
    rfl
  · simp only [System.step, hfin, Bool.not_false, if_true]

/-- Witness for C6: shut down, then submits, a tick, a forwarder ending, another
shutdown and more submits. -/
theorem ShutDown_idempotent_and_final_witness :
    ∃ s1 : System Nat,
      (System.init 2 500 : System Nat).run
        [Event.submit 1, Event.shutdown, Event.submit 2, Event.tick, Event.forwarderDone,
         Event.shutdown, Event.submit 3] = some s1 ∧
      s1.b.enable = false ∧
      ∀ j : Nat, s1.step (Event.submit j) = some s1 ∧ (AddJob s1.b j).state.jobs = s1.b.jobs ∧
        s1.step Event.enter = some s1 :=
  ⟨_, rfl,
    (ShutDown_idempotent_and_final
      { (System.init 2 500 : System Nat) with b := (AddJob (New 2 500) 1).state }
      [Event.submit 2, Event.tick, Event.forwarderDone, Event.shutdown, Event.submit 3]
      _ rfl).2.2.2⟩

/-! ## The size signal -/

theorem flush_eq (b b1 : batch Job) (jb : List Job)
    (h : sendBatchedJobsForProcessing b = some (b1, jb)) :
    b1 = resetTickerIfJobsRemain { b with ticker := none, jobs := b.jobs.drop b.size.toNat } ∧
    jb = b.jobs.take b.size.toNat := by
  by_cases hs : 0 ≤ b.size
  · rw [flush_of_nonneg b hs] at h
    simp only [Option.some.injEq, Prod.mk.injEq] at h
    exact ⟨h.1.symm, h.2.symm⟩
  · exfalso
    unfold sendBatchedJobsForProcessing at h
    have h1 : (b.jobs.length : Int) ≥ b.size := by omega
    have h2 : b.size < 0 := by omega
    simp [h1, h2] at h

theorem resetTickerIfJobsRemain_triggerBatch (b : batch Job) :
    (resetTickerIfJobsRemain b).triggerBatch = b.triggerBatch := by
  unfold resetTickerIfJobsRemain
  split <;> rfl

theorem resetTickerOnFirstJob_triggerBatch (b : batch Job) :
    (resetTickerOnFirstJob b).triggerBatch = b.triggerBatch := by
  unfold resetTickerOnFirstJob
  split <;> rfl

theorem flush_triggerBatch (s s1 : System Job) (h : s.flush = some s1) :
    s1.b.triggerBatch = s.b.triggerBatch := by
  unfold System.flush at h
  split at h
  · exact absurd h (by simp)
  · rename_i b1 jb heq
    simp only [Option.some.injEq] at h
    rw [← h, (flush_eq _ _ _ heq).1, resetTickerIfJobsRemain_triggerBatch]

theorem forwarderCheck_triggerBatch (s : System Job) :
    (System.forwarderCheck s).b.triggerBatch = s.b.triggerBatch := by
  unfold System.forwarderCheck
  split
  · split <;> rfl
  · rfl

theorem AddJob_state_triggerBatch_le (b : batch Job) (j : Job)
    (hc : b.triggerBatch ≤ chanCap) : (AddJob b j).state.triggerBatch ≤ chanCap := by
  unfold AddJob
  split
  · exact hc
  · dsimp only
    split
    · split
      · rename_i hlt
        simp only [AddJobResult.state, resetTickerOnFirstJob_triggerBatch]
        omega
      · exact hc
    · simp only [AddJobResult.state, resetTickerOnFirstJob_triggerBatch]
      exact hc

/-- No step puts a second signal into `triggerBatch`. -/
theorem step_keeps_triggerBatch_le (s : System Job) (e : Event Job) (s1 : System Job)
    (hc : s.b.triggerBatch ≤ chanCap) (hst : s.step e = some s1) :
    s1.b.triggerBatch ≤ chanCap := by
  cases e with
  | submit j =>
    have h := AddJob_state_triggerBatch_le s.b j hc
    simp only [System.step] at hst
    cases hadd : AddJob s.b j with
    | returned b1 =>
      rw [hadd] at hst h
      simp only [Option.some.injEq] at hst
      rw [← hst]
      exact h
    | blocked b1 =>
      rw [hadd] at hst h
      simp only [Option.some.injEq] at hst
      rw [← hst]
      exact h
  | shutdown =>
    simp only [System.step, Option.some.injEq] at hst
    rw [← hst]
    exact hc
  | tick =>
    simp only [System.step] at hst
    split at hst
    · rw [flush_triggerBatch s s1 hst]
      exact hc
    · exact absurd hst (by simp)
  | recvTrigger =>
    simp only [System.step] at hst
    split at hst
    · rw [flush_triggerBatch _ s1 hst]
      dsimp only
      omega
    · exact absurd hst (by simp)
  | recvStop =>
    simp only [System.step] at hst
    split at hst
    · simp only [Option.some.injEq] at hst
      rw [← hst]
      exact hc
    · exact absurd hst (by simp)
  | cancel =>
    simp only [System.step] at hst
    split at hst
    · simp only [Option.some.injEq] at hst
      rw [← hst]
      exact hc
    · exact absurd hst (by simp)
  | forwarderDone =>
    simp only [System.step] at hst
    split at hst
    · simp only [Option.some.injEq] at hst
      rw [← hst, forwarderCheck_triggerBatch]
      exact hc
    · exact absurd hst (by simp)
  | stopSent =>
    simp only [System.step] at hst
    split at hst
    · simp only [Option.some.injEq] at hst
      rw [← hst]
      exact hc
    · exact absurd hst (by simp)
  | triggerSent =>
    simp only [System.step] at hst
    split at hst
    · rename_i hen
      simp only [Option.some.injEq] at hst
      rw [← hst]
      dsimp only
      omega
    · exact absurd hst (by simp)
  | enter =>
    simp only [System.step] at hst
    split at hst <;>
      (simp only [Option.some.injEq] at hst; rw [← hst]; exact hc)
  | appendJob j =>
    simp only [System.step] at hst
    split at hst
    · simp only [Option.some.injEq] at hst
      rw [← hst]
      exact hc
    · exact absurd hst (by simp)
  | sizeCheck =>
    simp only [System.step] at hst
    split at hst
    · split at hst <;>
        (simp only [Option.some.injEq] at hst; rw [← hst]; exact hc)
    · exact absurd hst (by simp)
  | tickerCheck =>
    simp only [System.step] at hst
    split at hst
    · split at hst <;>
        (simp only [Option.some.injEq] at hst; rw [← hst]; exact hc)
    · exact absurd hst (by simp)
  | tickerReset =>
    simp only [System.step] at hst
    split at hst
    · simp only [Option.some.injEq] at hst
      rw [← hst]
      exact hc
    · exact absurd hst (by simp)

theorem reachable_triggerBatch_le (size : Int) (frequency : Nat) (s : System Job)
    (hr : Reachable size frequency s) : s.b.triggerBatch ≤ chanCap := by
  obtain ⟨es, hrun⟩ := hr
  exact run_preserves (fun t => t.b.triggerBatch ≤ chanCap) step_keeps_triggerBatch_le
    _ es s (Nat.zero_le _) hrun

/-- C9 as stated fails: limit 1, one job submitted and then flushed by the
ticker before the loop receives the size signal.  The batcher is enabled, the
signal is still buffered, and the next `AddJob` brings the queue to the limit:
that call does not return, it waits at the send on `triggerBatch`. -/
theorem AddJob_waits_when_signal_pending :
    (System.init 1 5 : System Nat).run [Event.submit 1, Event.tick] =
      some { b := { size := 1, frequency := 5, enable := true, jobs := [],
                    triggerBatch := 1, stopBatch := 0, ticker := none },
             loopRunning := true, processed := [[1]], forwarders := 1, stopSenders := 0,
             appenders := 0, sizeCheckers := 0, triggerSenders := 0, tickerCheckers := 0,
             tickerResetters := 0, closeCalls := 0 } ∧
    AddJob ({ size := 1, frequency := 5, enable := true, jobs := [],
              triggerBatch := 1, stopBatch := 0, ticker := none } : batch Nat) 7 =
      AddJobResult.blocked { size := 1, frequency := 5, enable := true, jobs := [7],
                             triggerBatch := 1, stopBatch := 0, ticker := none } ∧
    ¬ ∀ (s : System Nat) (j : Nat), Reachable 1 5 s → s.b.enable = true →
        ((s.b.jobs ++ [j]).length : Int) = s.b.size →
        (AddJob s.b j).isReturned = true := by
  refine ⟨by decide, by decide, fun h => ?_⟩
  have := h _ 7 ⟨[Event.submit 1, Event.tick], rfl⟩ rfl (by decide)
  exact absurd this (by decide)

theorem flush_triggerSenders (s s1 : System Job) (h : s.flush = some s1) :
    s1.triggerSenders = s.triggerSenders := by
  unfold System.flush at h
  split at h
  · exact absurd h (by simp)
  · simp only [Option.some.injEq] at h
    rw [← h]

theorem forwarderCheck_triggerSenders (s : System Job) :
    (System.forwarderCheck s).triggerSenders = s.triggerSenders := by
  unfold System.forwarderCheck
  split
  · split <;> rfl
  · rfl

theorem AddJob_state_triggerBatch_full (b : batch Job) (j : Job)
    (hfull : b.triggerBatch = 1) : (AddJob b j).state.triggerBatch = 1 := by
  unfold AddJob
  split
  · exact hfull
  · dsimp only
    split
    · split
      · rename_i hlt
        unfold chanCap at hlt
        omega
      · exact hfull
    · simp only [AddJobResult.state, resetTickerOnFirstJob_triggerBatch]
      exact hfull

/-- While a signal is buffered, no step other than the loop receiving it takes
it out of the buffer or lets a call standing at the send get past it. -/
theorem step_waits_while_full (s : System Job) (e : Event Job) (s1 : System Job)
    (hne : e ≠ Event.recvTrigger) (hfull : s.b.triggerBatch = 1)
    (hst : s.step e = some s1) :
    s1.b.triggerBatch = 1 ∧ s.triggerSenders ≤ s1.triggerSenders := by
  cases e with
  | submit j =>
    have h := AddJob_state_triggerBatch_full s.b j hfull
    simp only [System.step] at hst
    cases hadd : AddJob s.b j with
    | returned b1 =>
      rw [hadd] at hst h
      simp only [Option.some.injEq] at hst
      rw [← hst]
      exact ⟨h, le_refl _⟩
    | blocked b1 =>
      rw [hadd] at hst h
      simp only [Option.some.injEq] at hst
      rw [← hst]
      exact ⟨h, Nat.le_succ _⟩
  | shutdown =>
    simp only [System.step, Option.some.injEq] at hst
    rw [← hst]
    exact ⟨hfull, le_refl _⟩
  | tick =>
    simp only [System.step] at hst
    split at hst
    · rw [flush_triggerBatch s s1 hst, flush_triggerSenders s s1 hst]
      exact ⟨hfull, le_refl _⟩
    · exact absurd hst (by simp)
  | recvTrigger => exact absurd rfl hne
  | recvStop =>
    simp only [System.step] at hst
    split at hst
    · simp only [Option.some.injEq] at hst
      rw [← hst]
      exact ⟨hfull, le_refl _⟩
    · exact absurd hst (by simp)
  | cancel =>
    simp only [System.step] at hst
    split at hst
    · simp only [Option.some.injEq] at hst
      rw [← hst]
      exact ⟨hfull, le_refl _⟩
    · exact absurd hst (by simp)
  | forwarderDone =>
    simp only [System.step] at hst
    split at hst
    · simp only [Option.some.injEq] at hst
      rw [← hst, forwarderCheck_triggerBatch, forwarderCheck_triggerSenders]
      exact ⟨hfull, le_refl _⟩
    · exact absurd hst (by simp)
  | stopSent =>
    simp only [System.step] at hst
    split at hst
    · simp only [Option.some.injEq] at hst
      rw [← hst]
      exact ⟨hfull, le_refl _⟩
    · exact absurd hst (by simp)
  | triggerSent => simp [System.step, hfull, chanCap] at hst
  | enter =>
    simp only [System.step] at hst
    split at hst <;>
      (simp only [Option.some.injEq] at hst; rw [← hst]; exact ⟨hfull, le_refl _⟩)
  | appendJob j =>
    simp only [System.step] at hst
    split at hst
    · simp only [Option.some.injEq] at hst
      rw [← hst]
      exact ⟨hfull, le_refl _⟩
    · exact absurd hst (by simp)
  | sizeCheck =>
    simp only [System.step] at hst
    split at hst
    · split at hst
      · simp only [Option.some.injEq] at hst
        rw [← hst]
        exact ⟨hfull, Nat.le_succ _⟩
      · simp only [Option.some.injEq] at hst
        rw [← hst]
        exact ⟨hfull, le_refl _⟩
    · exact absurd hst (by simp)
  | tickerCheck =>
    simp only [System.step] at hst
    split at hst
    · split at hst <;>
        (simp only [Option.some.injEq] at hst; rw [← hst]; exact ⟨hfull, le_refl _⟩)
    · exact absurd hst (by simp)
  | tickerReset =>
    simp only [System.step] at hst
    split at hst
    · simp only [Option.some.injEq] at hst
      rw [← hst]
      exact ⟨hfull, le_refl _⟩
    · exact absurd hst (by simp)

theorem run_waits_while_full (s : System Job) (es : List (Event Job)) (s1 : System Job)
    (hno : Event.recvTrigger ∉ es) (hfull : s.b.triggerBatch = 1)
    (hrun : s.run es = some s1) :
    s1.b.triggerBatch = 1 ∧ s.triggerSenders ≤ s1.triggerSenders := by
  induction es generalizing s with
  | nil =>
    simp only [System.run, Option.some.injEq] at hrun
    rw [← hrun]
    exact ⟨hfull, le_refl _⟩
  | cons e es ih =>
    simp only [System.run] at hrun
    cases hst : s.step e with
    | none => rw [hst] at hrun; exact absurd hrun (by simp)
    | some s2 =>
      rw [hst] at hrun
      have hne : e ≠ Event.recvTrigger := fun h => hno (by rw [h]; exact List.mem_cons_self _ _)
      have hes : Event.recvTrigger ∉ es := fun h => hno (List.mem_cons_of_mem _ h)
      obtain ⟨h1, h2⟩ := step_waits_while_full s e s2 hne hfull hst
      obtain ⟨h3, h4⟩ := ih s2 hes h1 hrun
      exact ⟨h3, le_trans h2 h4⟩

theorem triggerSent_of_room (t : System Job) (hs : 0 < t.triggerSenders)
    (hz : t.b.triggerBatch = 0) :
    ∃ t2, t.step Event.triggerSent = some t2 ∧ t2.b.triggerBatch = 1 ∧
      t2.triggerSenders = t.triggerSenders - 1 := by
  refine ⟨{ t with b := { t.b with triggerBatch := t.b.triggerBatch + 1 },
                    triggerSenders := t.triggerSenders - 1,
                    tickerCheckers := t.tickerCheckers + 1 }, ?_, ?_, rfl⟩
  · simp only [System.step]
    rw [if_pos ⟨hs, by rw [hz]; decide⟩]
  · show t.b.triggerBatch + 1 = 1
    rw [hz]

theorem triggerSent_of_full (t : System Job) (h1 : t.b.triggerBatch = 1) :
    t.step Event.triggerSent = none := by
  simp [System.step, h1, chanCap]

theorem recvTrigger_frees_buffer (t t3 : System Job) (h1 : t.b.triggerBatch = 1)
    (hst : t.step Event.recvTrigger = some t3) :
    t3.b.triggerBatch = 0 ∧ t3.triggerSenders = t.triggerSenders := by
  simp only [System.step] at hst
  split at hst
  · rw [flush_triggerBatch _ t3 hst, flush_triggerSenders _ t3 hst]
    dsimp only
    exact ⟨by rw [h1], rfl⟩
  · exact absurd hst (by simp)

/-- A call of `AddJob` that nothing interrupts is the run of its pieces. -/
theorem submit_eq_run_AddJobSteps (s : System Job) (j : Job) :
    s.run (AddJobSteps s.b j) = s.step (Event.submit j) := by
  unfold AddJobSteps
  cases he : s.b.enable with
  | false => simp [System.run, System.step, he, AddJob]
  | true =>
    simp only [Bool.not_true, Bool.false_eq_true, if_false]
    by_cases hsz : ((s.b.jobs ++ [j]).length : Int) = s.b.size
    · by_cases hcap : s.b.triggerBatch < chanCap
      · by_cases hone : (s.b.jobs ++ [j]).length = 1
        · simp only [System.run, System.step, AddJob, resetTickerOnFirstJob, he, Bool.not_true,
            Bool.false_eq_true, if_false, if_pos hsz, if_pos hcap, if_pos hone,
            Nat.zero_lt_succ, if_true, true_and, List.cons_append, List.nil_append,
            Nat.add_sub_cancel]
        · simp only [System.run, System.step, AddJob, resetTickerOnFirstJob, he, Bool.not_true,
            Bool.false_eq_true, if_false, if_pos hsz, if_pos hcap, if_neg hone,
            Nat.zero_lt_succ, if_true, true_and, List.cons_append, List.nil_append,
            Nat.add_sub_cancel]
      · simp only [System.run, System.step, AddJob, resetTickerOnFirstJob, he, Bool.not_true,
            Bool.false_eq_true, if_false, if_pos hsz, if_neg hcap,
            Nat.zero_lt_succ, if_true, true_and, List.cons_append, List.nil_append,
            Nat.add_sub_cancel]
    · by_cases hone : (s.b.jobs ++ [j]).length = 1
      · simp only [System.run, System.step, AddJob, resetTickerOnFirstJob, he, Bool.not_true,
            Bool.false_eq_true, if_false, if_neg hsz, if_pos hone,
            Nat.zero_lt_succ, if_true, true_and, List.cons_append, List.nil_append,
            Nat.add_sub_cancel]
      · simp only [System.run, System.step, AddJob, resetTickerOnFirstJob, he, Bool.not_true,
            Bool.false_eq_true, if_false, if_neg hsz, if_neg hone,
            Nat.zero_lt_succ, if_true, true_and, List.cons_append, List.nil_append,
            Nat.add_sub_cancel]

theorem size_check_reaches_send (s : System Job) (j : Job) (he : s.b.enable = true)
    (hlen : ((s.b.jobs ++ [j]).length : Int) = s.b.size) :
    ∃ s1 : System Job,
      s.run [Event.enter, Event.appendJob j, Event.sizeCheck] = some s1 ∧
      s1.b.jobs = s.b.jobs ++ [j] ∧
      s1.b.triggerBatch = s.b.triggerBatch ∧
      s1.triggerSenders = s.triggerSenders + 1 := by
  refine ⟨{ s with b := { s.b with jobs := s.b.jobs ++ [j] },
                   appenders := s.appenders + 1 - 1,
                   sizeCheckers := s.sizeCheckers + 1 - 1,
                   triggerSenders := s.triggerSenders + 1 }, ?_, rfl, rfl, rfl⟩
  simp only [System.run, System.step, he, Bool.not_true, Bool.false_eq_true, if_false]
  rw [if_pos (Nat.succ_pos _)]
  simp only []
  rw [if_pos (Nat.succ_pos _), if_pos hlen]

/-- C9, amended: the size signal is sent by a plain, blocking send on a channel
of capacity 1.  In every reachable enabled state in which the appended job
brings the queue to `size`, no more than one signal is buffered, and a call of
`AddJob` whose size check still finds that length stands at the send.  When no
signal is buffered the send goes through at once and exactly one signal is
buffered after it.  When one is buffered the send cannot go through: in every
execution from there in which the loop does not receive, the signal stays
buffered and the call stays at the send; once the loop has received, the send
can go through and again exactly one signal is buffered.  A call that nothing
interrupts returns exactly when no signal was buffered. -/
theorem AddJob_size_signal (size : Int) (frequency : Nat) (s : System Job) (j : Job)
    (hr : Reachable size frequency s) (he : s.b.enable = true)
    (hlen : ((s.b.jobs ++ [j]).length : Int) = s.b.size) :
    s.b.triggerBatch ≤ 1 ∧
    ((AddJob s.b j).isReturned = true ↔ s.b.triggerBatch = 0) ∧
    ∃ s1 : System Job,
      s.run [Event.enter, Event.appendJob j, Event.sizeCheck] = some s1 ∧
      s1.b.jobs = s.b.jobs ++ [j] ∧
      s1.b.triggerBatch = s.b.triggerBatch ∧
      s1.triggerSenders = s.triggerSenders + 1 ∧
      (s.b.triggerBatch = 0 →
        ∃ s2, s1.step Event.triggerSent = some s2 ∧ s2.b.triggerBatch = 1 ∧
          s2.triggerSenders = s.triggerSenders) ∧
      (s.b.triggerBatch = 1 →
        s1.step Event.triggerSent = none ∧
        (∀ (es : List (Event Job)) (s3 : System Job),
          Event.recvTrigger ∉ es → s1.run es = some s3 →
          s3.b.triggerBatch = 1 ∧ s3.step Event.triggerSent = none ∧
            s1.triggerSenders ≤ s3.triggerSenders) ∧
        (∀ s3 : System Job, s1.step Event.recvTrigger = some s3 →
          ∃ s4, s3.step Event.triggerSent = some s4 ∧ s4.b.triggerBatch = 1)) := by
  have hc := reachable_triggerBatch_le size frequency s hr
  unfold chanCap at hc
  refine ⟨hc, ?_, ?_⟩
  · unfold AddJob
    simp only [he, Bool.not_true, Bool.false_eq_true, if_false, hlen, if_true, chanCap]
    by_cases h0 : s.b.triggerBatch < 1
    · have hz : s.b.triggerBatch = 0 := by omega
      simp [hz, AddJobResult.isReturned]
    · have h1 : s.b.triggerBatch = 1 := by omega
      simp [h1, AddJobResult.isReturned]
  · obtain ⟨s1, hrun, hjobs, htrig, hsnd⟩ := size_check_reaches_send s j he hlen
    have hpos : 0 < s1.triggerSenders := by rw [hsnd]; exact Nat.succ_pos _
    refine ⟨s1, hrun, hjobs, htrig, hsnd, ?_, ?_⟩
    · intro hz
      obtain ⟨s2, h1, h2, h3⟩ := triggerSent_of_room s1 hpos (by rw [htrig, hz])
      refine ⟨s2, h1, h2, ?_⟩
      rw [h3, hsnd]
      rfl
    · intro h1
      have hfull : s1.b.triggerBatch = 1 := by rw [htrig, h1]
      refine ⟨triggerSent_of_full s1 hfull, ?_, ?_⟩
      · intro es s3 hno hrun3
        obtain ⟨h3, h4⟩ := run_waits_while_full s1 es s3 hno hfull hrun3
        exact ⟨h3, triggerSent_of_full s3 h3, h4⟩
      · intro s3 hst
        obtain ⟨h3, h4⟩ := recvTrigger_frees_buffer s1 s3 hfull hst
        obtain ⟨s4, h5, h6, -⟩ := triggerSent_of_room s3 (by rw [h4]; exact hpos) h3
        exact ⟨s4, h5, h6⟩

/-- Witness for C9, amended: limit 1, the state after one job was submitted and
flushed by the ticker, its size signal still buffered; the next `AddJob`
stands at the send and stays there until the loop receives. -/
theorem AddJob_size_signal_witness :
    (1 : Nat) ≤ 1 ∧
    ((AddJob ({ size := 1, frequency := 5, enable := true, jobs := [], triggerBatch := 1,
                stopBatch := 0, ticker := none } : batch Nat) 7).isReturned = true
      ↔ (1 : Nat) = 0) ∧
    ∃ s1 : System Nat,
      System.run
          { b := { size := 1, frequency := 5, enable := true, jobs := [], triggerBatch := 1,
                   stopBatch := 0, ticker := none },
            loopRunning := true, processed := [[1]], forwarders := 1, stopSenders := 0,
            appenders := 0, sizeCheckers := 0, triggerSenders := 0, tickerCheckers := 0,
            tickerResetters := 0, closeCalls := 0 }
          [Event.enter, Event.appendJob 7, Event.sizeCheck] = some s1 ∧
      s1.b.jobs = [7] ∧
      s1.b.triggerBatch = 1 ∧
      s1.triggerSenders = 1 ∧
      ((1 : Nat) = 0 →
        ∃ s2, s1.step Event.triggerSent = some s2 ∧ s2.b.triggerBatch = 1 ∧
          s2.triggerSenders = 0) ∧
      ((1 : Nat) = 1 →
        s1.step Event.triggerSent = none ∧
        (∀ (es : List (Event Nat)) (s3 : System Nat),
          Event.recvTrigger ∉ es → s1.run es = some s3 →
          s3.b.triggerBatch = 1 ∧ s3.step Event.triggerSent = none ∧
            s1.triggerSenders ≤ s3.triggerSenders) ∧
        (∀ s3 : System Nat, s1.step Event.recvTrigger = some s3 →
          ∃ s4, s3.step Event.triggerSent = some s4 ∧ s4.b.triggerBatch = 1)) :=
  AddJob_size_signal 1 5
    { b := { size := 1, frequency := 5, enable := true, jobs := [], triggerBatch := 1,
             stopBatch := 0, ticker := none },
      loopRunning := true, processed := [[1]], forwarders := 1, stopSenders := 0,
      appenders := 0, sizeCheckers := 0, triggerSenders := 0, tickerCheckers := 0,
      tickerResetters := 0, closeCalls := 0 }
    7 ⟨[Event.submit 1, Event.tick], rfl⟩ rfl (by decide)

/-- The waiting call gets on once the loop has received: from the state of the
witness above, the call stands at the send, the loop receives the buffered
signal and flushes, and the call then sends; one signal is buffered again. -/
theorem sender_proceeds_after_receive :
    System.run
        ({ b := { size := 1, frequency := 5, enable := true, jobs := [], triggerBatch := 1,
                  stopBatch := 0, ticker := none },
           loopRunning := true, processed := [[1]], forwarders := 1, stopSenders := 0,
           appenders := 0, sizeCheckers := 0, triggerSenders := 0, tickerCheckers := 0,
           tickerResetters := 0, closeCalls := 0 } : System Nat)
        [Event.enter, Event.appendJob 7, Event.sizeCheck, Event.recvTrigger,
         Event.triggerSent] =
      some { b := { size := 1, frequency := 5, enable := true, jobs := [], triggerBatch := 1,
                    stopBatch := 0, ticker := none },
             loopRunning := true, processed := [[1], [7]], forwarders := 2, stopSenders := 0,
             appenders := 0, sizeCheckers := 0, triggerSenders := 0, tickerCheckers := 1,
             tickerResetters := 0, closeCalls := 0 } := by
  decide

/-- The size check reads the queue after `unlock()`: limit 2, one job queued, a
second call appends its job, and the ticker flushes both before that call
evaluates `len(b.jobs) == b.size`.  The call finds length 0, sends nothing and
returns; no signal is buffered. -/
theorem size_check_after_flush_sends_nothing :
    (System.init 2 5 : System Nat).run
      [Event.submit 1, Event.enter, Event.appendJob 2, Event.tick, Event.sizeCheck,
       Event.tickerCheck] =
      some { b := { size := 2, frequency := 5, enable := true, jobs := [],
                    triggerBatch := 0, stopBatch := 0, ticker := none },
             loopRunning := true, processed := [[1, 2]], forwarders := 1, stopSenders := 0,
             appenders := 0, sizeCheckers := 0, triggerSenders := 0, tickerCheckers := 0,
             tickerResetters := 0, closeCalls := 0 } := by
  decide

/-! ## Closing the result channel -/

/-- C7 fails on the code: limit 2, jobs 1 and 2 flushed on the size signal, job
3 submitted, `ShutDown`, job 3 flushed on the tick while the first batch is
still with the processor.  Each of the two forwarders, when its processor
channel ends, finds the queue empty and `enable` false, sends on `stopBatch`
and runs `close(b.result)`: the statement is executed twice. -/
theorem result_closed_twice :
    (System.init 2 50 : System Nat).run
      [Event.submit 1, Event.submit 2, Event.recvTrigger, Event.submit 3, Event.shutdown,
       Event.tick, Event.forwarderDone, Event.recvStop, Event.forwarderDone] =
      some { b := { size := 2, frequency := 50, enable := false, jobs := [],
                    triggerBatch := 0, stopBatch := 1, ticker := none },
             loopRunning := false, processed := [[1, 2], [3]], forwarders := 0,
             stopSenders := 0, appenders := 0, sizeCheckers := 0, triggerSenders := 0,
             tickerCheckers := 0, tickerResetters := 0, closeCalls := 2 } ∧
    ¬ ∀ s : System Nat, Reachable 2 50 s → s.closeCalls ≤ 1 := by
  refine ⟨by decide, fun h => ?_⟩
  have := h _ ⟨[Event.submit 1, Event.submit 2, Event.recvTrigger, Event.submit 3,
    Event.shutdown, Event.tick, Event.forwarderDone, Event.recvStop, Event.forwarderDone], rfl⟩
  exact absurd this (by decide)

/-- In a state with the queue empty, `enable` false, the ticker stopped, no size
signal buffered and no goroutine under way, every step that can happen leaves
all of that so, and does not close the result channel. -/
theorem step_keeps_idle_shutdown (s : System Job) (e : Event Job) (s1 : System Job)
    (h : s.b.jobs = [] ∧ s.b.enable = false ∧ s.b.ticker = none ∧ s.b.triggerBatch = 0 ∧
      s.forwarders = 0 ∧ s.stopSenders = 0 ∧ s.triggerSenders = 0 ∧ s.closeCalls = 0 ∧
      s.sizeCheckers = 0 ∧ s.tickerCheckers = 0 ∧ s.tickerResetters = 0 ∧ s.appenders = 0)
    (hst : s.step e = some s1) :
    s1.b.jobs = [] ∧ s1.b.enable = false ∧ s1.b.ticker = none ∧ s1.b.triggerBatch = 0 ∧
      s1.forwarders = 0 ∧ s1.stopSenders = 0 ∧ s1.triggerSenders = 0 ∧ s1.closeCalls = 0 ∧
      s1.sizeCheckers = 0 ∧ s1.tickerCheckers = 0 ∧ s1.tickerResetters = 0 ∧
      s1.appenders = 0 := by
  obtain ⟨hj, he, ht, hg, hf, hp, hq, hc, hx, hy, hz, hw⟩ := h
  cases e with
  | submit j =>
    rw [step_submit_of_disabled s j he] at hst
    simp only [Option.some.injEq] at hst
    rw [← hst]
    exact ⟨hj, he, ht, hg, hf, hp, hq, hc, hx, hy, hz, hw⟩
  | shutdown =>
    simp only [System.step, Option.some.injEq] at hst
    rw [← hst]
    exact ⟨hj, rfl, ht, hg, hf, hp, hq, hc, hx, hy, hz, hw⟩
  | tick => simp [System.step, ht] at hst
  | recvTrigger => simp [System.step, hg] at hst
  | recvStop =>
    simp only [System.step] at hst
    split at hst
    · simp only [Option.some.injEq] at hst
      rw [← hst]
      exact ⟨hj, he, ht, hg, hf, hp, hq, hc, hx, hy, hz, hw⟩
    · exact absurd hst (by simp)
  | cancel =>
    simp only [System.step] at hst
    split at hst
    · simp only [Option.some.injEq] at hst
      rw [← hst]
      exact ⟨hj, he, ht, hg, hf, hp, hq, hc, hx, hy, hz, hw⟩
    · exact absurd hst (by simp)
  | forwarderDone => simp [System.step, hf] at hst
  | stopSent => simp [System.step, hp] at hst
  | triggerSent => simp [System.step, hq] at hst
  | enter =>
    simp only [System.step, he, Bool.not_false, if_true, Option.some.injEq] at hst
    rw [← hst]
    exact ⟨hj, he, ht, hg, hf, hp, hq, hc, hx, hy, hz, hw⟩
  | appendJob j => simp [System.step, hw] at hst
  | sizeCheck => simp [System.step, hx] at hst
  | tickerCheck => simp [System.step, hy] at hst
  | tickerReset => simp [System.step, hz] at hst

/-- C8 fails on the code: limit 1, one job submitted, flushed on the size
signal and fully forwarded (the forwarder ends while `enable` is still true,
so it closes nothing), then `ShutDown`.  The state is quiescent, the flag is
set, the queue is empty and `close(b.result)` was never executed. -/
theorem shutdown_after_drain_leaves_result_open :
    (System.init 1 50 : System Nat).run
      [Event.submit 1, Event.recvTrigger, Event.forwarderDone, Event.shutdown] =
      some { b := { size := 1, frequency := 50, enable := false, jobs := [],
                    triggerBatch := 0, stopBatch := 0, ticker := none },
             loopRunning := true, processed := [[1]], forwarders := 0,
             stopSenders := 0, appenders := 0, sizeCheckers := 0, triggerSenders := 0,
             tickerCheckers := 0, tickerResetters := 0, closeCalls := 0 } ∧
    System.quiescent
      ({ b := { size := 1, frequency := 50, enable := false, jobs := [],
                triggerBatch := 0, stopBatch := 0, ticker := none },
         loopRunning := true, processed := [[1]], forwarders := 0,
         stopSenders := 0, appenders := 0, sizeCheckers := 0, triggerSenders := 0,
         tickerCheckers := 0, tickerResetters := 0, closeCalls := 0 } : System Nat) = true ∧
    ∃ s : System Nat, Reachable 1 50 s ∧ s.quiescent = true ∧ s.b.enable = false ∧
      s.b.jobs = [] ∧ s.closeCalls = 0 := by
  refine ⟨by decide, by decide, _, ⟨[Event.submit 1, Event.recvTrigger, Event.forwarderDone,
    Event.shutdown], rfl⟩, ?_, ?_, ?_, ?_⟩ <;> rfl

/-- After a job was flushed and fully forwarded and `ShutDown` came last, no
execution ever closes the result channel. -/
theorem result_never_closed_after_late_shutdown (es : List (Event Nat)) (s1 : System Nat)
    (hrun : (System.init 1 50 : System Nat).run
      ([Event.submit 1, Event.recvTrigger, Event.forwarderDone, Event.shutdown] ++ es)
        = some s1) :
    s1.closeCalls = 0 := by
  rw [run_append] at hrun
  have h0 : (System.init 1 50 : System Nat).run
      [Event.submit 1, Event.recvTrigger, Event.forwarderDone, Event.shutdown] =
      some { b := { size := 1, frequency := 50, enable := false, jobs := [],
                    triggerBatch := 0, stopBatch := 0, ticker := none },
             loopRunning := true, processed := [[1]], forwarders := 0,
             stopSenders := 0, appenders := 0, sizeCheckers := 0, triggerSenders := 0,
             tickerCheckers := 0, tickerResetters := 0, closeCalls := 0 } := by decide
  rw [h0] at hrun
  simp only [Option.bind] at hrun
  exact (run_preserves
    (fun t => t.b.jobs = [] ∧ t.b.enable = false ∧ t.b.ticker = none ∧
      t.b.triggerBatch = 0 ∧
      t.forwarders = 0 ∧ t.stopSenders = 0 ∧ t.triggerSenders = 0 ∧ t.closeCalls = 0 ∧
      t.sizeCheckers = 0 ∧ t.tickerCheckers = 0 ∧ t.tickerResetters = 0 ∧
      t.appenders = 0)
    step_keeps_idle_shutdown _ es s1
    ⟨rfl, rfl, rfl, rfl, rfl, rfl, rfl, rfl, rfl, rfl, rfl, rfl⟩ hrun).2.2.2.2.2.2.2.1

/-! ## The ticker -/

/-- C10 fails on the code in the freshly constructed state: `New` leaves the
ticker of `time.NewTicker` running although the queue is empty, for every
`size` and `frequency`; with the values of `main.go` the first tick then
flushes an empty batch to the processor. -/
theorem New_ticker_runs_on_empty_queue (size : Int) (frequency : Nat) :
    Reachable size frequency (System.init size frequency : System Job) ∧
    (System.init size frequency : System Job).b.jobs = [] ∧
    (System.init size frequency : System Job).b.ticker = some frequency ∧
    (System.init 5 5 : System Job).step Event.tick =
      some { b := { size := 5, frequency := 5, enable := true, jobs := [],
                    triggerBatch := 0, stopBatch := 0, ticker := none },
             loopRunning := true, processed := [[]], forwarders := 1,
             stopSenders := 0, appenders := 0, sizeCheckers := 0, triggerSenders := 0,
             tickerCheckers := 0, tickerResetters := 0, closeCalls := 0 } :=
  ⟨⟨[], rfl⟩, rfl, rfl, rfl⟩

/-- At the `unlock()` of a flush the ticker runs exactly when jobs remain in the
queue. -/
theorem ticker_after_flush (b b1 : batch Job) (jb : List Job)
    (h : sendBatchedJobsForProcessing b = some (b1, jb)) :
    b1.ticker.isSome = true ↔ b1.jobs ≠ [] := by
  rw [(flush_eq b b1 jb h).1]
  unfold resetTickerIfJobsRemain
  dsimp only
  split
  · rename_i hpos
    simp only [Option.isSome_some, true_iff]
    exact List.ne_nil_of_length_pos hpos
  · rename_i hpos
    simp only [Option.isSome_none, Bool.false_eq_true, false_iff, not_not]
    exact List.length_eq_zero.mp (by omega)

/-- A call of `AddJob` that nothing interrupts and that takes the queue from
empty to one job, once it has run to its end, leaves the ticker running. -/
theorem ticker_after_first_job (b : batch Job) (j : Job) (he : b.enable = true)
    (hj : b.jobs = []) (hret : (AddJob b j).isReturned = true) :
    (AddJob b j).state.ticker = some b.frequency := by
  unfold AddJob at hret ⊢
  simp only [he, Bool.not_true, Bool.false_eq_true, if_false, hj, List.nil_append] at hret ⊢
  split
  · split
    · simp [AddJobResult.state, resetTickerOnFirstJob]
    · rename_i h1 h2
      have h3 : (1 : Int) = b.size := by simpa using h1
      simp [h3, h2, AddJobResult.isReturned] at hret
  · simp [AddJobResult.state, resetTickerOnFirstJob]


/-- The ticker reset of `AddJob` runs after `unlock()`: limit 1, a call appends
its job, sends the size signal and finds `len(b.jobs) == 1`; the loop receives
the signal and flushes (stopping the ticker, queue empty) before the call
runs `b.ticker.Reset`.  The ticker then runs on the empty queue although a
batch has been flushed, and its tick hands the processor an empty batch. -/
theorem ticker_reset_lands_after_flush :
    (System.init 1 30 : System Nat).run
      [Event.enter, Event.appendJob 1, Event.sizeCheck, Event.triggerSent, Event.tickerCheck,
       Event.recvTrigger, Event.tickerReset] =
      some { b := { size := 1, frequency := 30, enable := true, jobs := [],
                    triggerBatch := 0, stopBatch := 0, ticker := some 30 },
             loopRunning := true, processed := [[1]], forwarders := 1, stopSenders := 0,
             appenders := 0, sizeCheckers := 0, triggerSenders := 0, tickerCheckers := 0,
             tickerResetters := 0, closeCalls := 0 } ∧
    ((System.init 1 30 : System Nat).run
      [Event.enter, Event.appendJob 1, Event.sizeCheck, Event.triggerSent, Event.tickerCheck,
       Event.recvTrigger, Event.tickerReset, Event.tick]).map System.processed =
      some [[1], []] := by
  constructor <;> decide

end Batcher
